import Mathlib

/-!
Verification of the core push-reconciliation logic of a mysqldiff bridge CLI.

The source program reconciles a directory of `<tablename>.sql` schema files
with a live MySQL database.  Its core pure functions are

  * `removeSqlStrMetaSync`, which applies the JavaScript global regex replace
    `origSqlStr.replace(/\/\*\!.+\*\/;(\r?\n)*/g, "")`;
  * `mergeTwoListsSync`, which merges two table-name lists through an
    insertion-ordered `Set`;
  * `getExclusiveImageRemoteNameListInFirstOperandSync`, which keeps the
    elements of its first list absent from its second;
  * `isSqlFileSync`, which keeps regular files with a `.sql` suffix;

and its `runPush(dryRunPush)` driver is a promise chain:
SHOW TABLES on the live connection, DROP/CREATE/USE of the scratch database
`tmp`, a directory listing, one sourcing query per `.sql` file, then one
script fragment per merged table name (CREATE text, `DROP TABLE IF EXISTS`,
or the stdout of an external `mysqldiff` subprocess), a script write, an
optional execution against the live database, and an optional cleanup drop.

The embedding below models the regex operationally (leftmost match, greedy
`.+` within one line, then greedy `(\r?\n)*`), the list functions directly,
and the promise chain as a pure function from an environment of query and
subprocess outcomes to the list of performed effects.
-/

/-! ## The sanitizer `removeSqlStrMetaSync` -/

/-- Whether the JavaScript regex `.` (no `s` flag) matches a character:
every character except the line terminators LF, CR, LS and PS. -/
def isDotChar (c : Char) : Bool :=
  c != '\n' && c != '\r' && c != Char.ofNat 0x2028 && c != Char.ofNat 0x2029

/-- Whether the first list is an initial run of the second. -/
def leadsWith : List Char → List Char → Bool
  | [], _ => true
  | _ :: _, [] => false
  | p :: ps, c :: cs => p == c && leadsWith ps cs

/-- Length of the maximal initial run of `.`-matching characters. -/
def dotRunLen : List Char → Nat
  | [] => 0
  | c :: cs => if isDotChar c then dotRunLen cs + 1 else 0

/-- The literal `*/;` that terminates a conditional-comment directive. -/
def termClose : List Char := ['*', '/', ';']

/-- The literal `/*!` that opens a conditional-comment directive. -/
def bangOpen : List Char := ['/', '*', '!']

/-- Greedy backtracking for the `.+` part of the regex: the largest
`k ≥ 1` at most the given bound such that `*/;` starts `rest.drop k`. -/
def greedyBody (rest : List Char) : Nat → Option Nat
  | 0 => none
  | k + 1 =>
    if leadsWith termClose (rest.drop (k + 1)) then some (k + 1)
    else greedyBody rest k

/-- Length of the maximal initial run matched by `(\r?\n)*`. -/
def nlRunLen : List Char → Nat
  | '\r' :: '\n' :: cs => nlRunLen cs + 2
  | '\n' :: cs => nlRunLen cs + 1
  | _ => 0

/-- Length of the match of `\/\*\!.+\*\/;(\r?\n)*` anchored at the head of
the list, or `none` when the regex does not match there.  `.+` is greedy
within the current line and backtracks to the last `*/;` it can reach;
`(\r?\n)*` then consumes the following newline run. -/
def matchDirectiveLen : List Char → Option Nat
  | '/' :: '*' :: '!' :: rest =>
    match greedyBody rest (dotRunLen rest) with
    | some k => some (3 + k + 3 + nlRunLen (rest.drop (k + 3)))
    | none => none
  | _ => none

/-- Global replace of the directive regex by the empty string: scan left to
right, erase each leftmost match, continue after it.  The fuel argument is
the length of the original list; every match is nonempty, so the fuel never
runs out when started at the list's length. -/
def stripAux : Nat → List Char → List Char
  | _, [] => []
  | 0, cs => cs
  | fuel + 1, c :: cs =>
    match matchDirectiveLen (c :: cs) with
    | some n => stripAux fuel (List.drop n (c :: cs))
    | none => c :: stripAux fuel cs

/-- Embedding of the source's sanitizer
`removeSqlStrMetaSync(origSqlStr) = origSqlStr.replace(/\/\*\!.+\*\/;(\r?\n)*/g, "")`. -/
def removeSqlStrMetaSync (origSqlStr : String) : String :=
  String.mk (stripAux origSqlStr.data.length origSqlStr.data)

/-! ## Reconciliation of the two table-name lists -/

/-- One step of insertion into a JavaScript `Set` kept as its insertion-order
element list: `Set.add` is a no-op on a present element and appends an
absent one. -/
def setAdd (resultSet : List String) (eleVal : String) : List String :=
  if eleVal ∈ resultSet then resultSet else resultSet ++ [eleVal]

/-- Embedding of `mergeTwoListsSync`: add every element of the first list to
an empty `Set`, then every element of the second not already present, and
return the set's insertion-order elements. -/
def mergeTwoListsSync (firstOperandList secondOperandList : List String) : List String :=
  secondOperandList.foldl setAdd (firstOperandList.foldl setAdd [])

/-- Embedding of `getExclusiveImageRemoteNameListInFirstOperandSync`: push
each element of the first list absent from the second (membership checked
through a `Set` built from the second list). -/
def getExclusiveImageRemoteNameListInFirstOperandSync
    (firstOperandList secondOperandList : List String) : List String :=
  firstOperandList.foldl
    (fun resultList eleVal =>
      if eleVal ∈ secondOperandList then resultList else resultList ++ [eleVal]) []

/-- The exclusive set `runPush` computes as
`getExclusiveImageRemoteNameListInFirstOperandSync(versionControlledTableNameList, livedbTableNameList)`:
tables defined only in the schema files. -/
def exclusiveVersionControlledTableNameList
    (versionControlledTableNameList livedbTableNameList : List String) : List String :=
  getExclusiveImageRemoteNameListInFirstOperandSync
    versionControlledTableNameList livedbTableNameList

/-- The exclusive set `runPush` computes as
`getExclusiveImageRemoteNameListInFirstOperandSync(livedbTableNameList, versionControlledTableNameList)`:
tables present only in the live database. -/
def exclusiveLivedbTableNameList
    (versionControlledTableNameList livedbTableNameList : List String) : List String :=
  getExclusiveImageRemoteNameListInFirstOperandSync
    livedbTableNameList versionControlledTableNameList

/-- The tables `runPush` treats as present on both sides: the merged names
that its per-table classification sends to the external diff because they
are in neither exclusive list. -/
def inBothList (versionControlledTableNameList livedbTableNameList : List String) :
    List String :=
  (mergeTwoListsSync versionControlledTableNameList livedbTableNameList).filter
    (fun t =>
      t ∉ exclusiveVersionControlledTableNameList
            versionControlledTableNameList livedbTableNameList ∧
      t ∉ exclusiveLivedbTableNameList
            versionControlledTableNameList livedbTableNameList)

/-- Specification-side first-seen deduplication: keep the first occurrence
of each element, in order.  Used to state what order `mergeTwoListsSync`
produces; it is not part of the source. -/
def firstSeenDedup : List String → List String
  | [] => []
  | x :: xs => x :: firstSeenDedup (xs.filter (fun y => y ≠ x))
termination_by l => l.length
decreasing_by
  simp only [List.length_cons]
  exact Nat.lt_succ_of_le (List.length_filter_le _ _)

/-! ## The `runPush` pipeline -/

/-- Whether a file name carries the `.sql` suffix (the regex `/\.sql$/`). -/
def hasSqlExt (file : String) : Bool :=
  leadsWith ['l', 'q', 's', '.'] file.data.reverse

/-- Embedding of `isSqlFileSync`: a directory entry is a schema file when it
is a regular file (an environment fact, passed in as an oracle) and its name
matches `/\.sql$/`. -/
def isSqlFileSync (isRegularFile : String → Bool) (file : String) : Bool :=
  isRegularFile file && hasSqlExt file

/-- Embedding of `path.basename(file, '.sql')` on a directory entry: the
`.sql` suffix is removed unless it is the whole name. -/
def basenameSql (file : String) : String :=
  if file != ".sql" && hasSqlExt file then String.mk (file.data.take (file.data.length - 4))
  else file

/-- One fragment of the push script, as `runPush` builds it for one merged
table name: the sanitized contents of `<tableName>.sql` when the table is
only in the files, a `DROP TABLE IF EXISTS` statement when it is only live,
and the external diff's captured stdout otherwise — each with the trailing
newline of `util.format("%s\n", ...)`. -/
def scriptFragment (fileContent diffStdout : String → String)
    (exclVC exclLive : List String) (tableName : String) : String :=
  if tableName ∈ exclVC then
    removeSqlStrMetaSync (fileContent (tableName ++ ".sql")) ++ "\n"
  else if tableName ∈ exclLive then
    "DROP TABLE IF EXISTS " ++ tableName ++ "\n"
  else
    diffStdout tableName ++ "\n"

/-- The push script `runPush` accumulates: starting from the empty string,
each merged table name appends its fragment to `pushScript`. `fileContent`
maps a directory entry name to the raw contents of that file and
`diffStdout` maps a table name to the external `mysqldiff` stdout. -/
def assemblePushScript (fileContent diffStdout : String → String)
    (versionControlledTableNameList livedbTableNameList : List String) : String :=
  (mergeTwoListsSync versionControlledTableNameList livedbTableNameList).foldl
    (fun pushScript tableName =>
      pushScript ++
        scriptFragment fileContent diffStdout
          (exclusiveVersionControlledTableNameList
            versionControlledTableNameList livedbTableNameList)
          (exclusiveLivedbTableNameList
            versionControlledTableNameList livedbTableNameList)
          tableName) ""

/-- An observable side effect of the `runPush` promise chain, in the order
the chain performs them. -/
inductive Effect where
  | showTables
  | dropTmpDb
  | createTmpDb
  | useTmpDb
  | readdir
  | sourceFile (file : String) (ok : Bool)
  | diffTable (tableName : String)
  | writeScript (script : String)
  | execPushScript (script : String)
  | cleanupDropTmpDb
deriving DecidableEq, Repr

/-- The environment a `runPush` run observes: the outcome of each database
query, the directory listing, the per-entry file-system facts, file
contents, per-file sourcing outcomes, external diff outputs, and the CLI
flags that are not the `dryRunPush` parameter. -/
structure DbEnv where
  showTablesResult : Option (List String)
  dropDbOk : Bool
  createDbOk : Bool
  useDbOk : Bool
  readdirResult : Option (List String)
  isRegularFile : String → Bool
  fileContent : String → String
  sourceOk : String → Bool
  diffStdout : String → String
  exportPathTruthy : Bool
  retainsTmp : Bool

/-- Embedding of the `runPush(dryRunPush)` promise chain as the list of
effects it performs.  Fidelity notes, stage by stage:
1. `SHOW TABLES` runs on the live connection; on error it logs and resolves
   `false`, else fills `livedbTableNameList`.  The next `.then` callback
   does not inspect that boolean, so the chain continues either way.
2. `DROP DATABASE IF EXISTS tmp` always runs; from here on every `.then`
   guards `if (false == trueOrFalse) throw new Error()`, so a failed stage
   skips straight to `.catch`/`.finally`.
3. `CREATE DATABASE tmp`, 4. `USE tmp`, 5. `fs.readdir` (an error resolves
   `null`, which the next stage turns into a throw), 6. a throw when the
   raw listing has zero entries — the `.sql` filter happens only after this
   check.  Then each listing entry that passes `isSqlFileSync` is sourced
   into `tmp` one at a time; a per-file error only logs "Not sourced".
7. One fragment per merged table name; tables in neither exclusive list
   spawn a `mysqldiff` subprocess whose stdout is appended blindly.
8. The script is written when the export path is truthy (a write error is
   caught and logged), then executed on the live connection unless
   `dryRunPush`; `.finally` drops `tmp` unless `retainsTmp`. -/
def runPushModel (env : DbEnv) (dryRunPush : Bool) : List Effect :=
  let cleanupTrace : List Effect :=
    if env.retainsTmp then [] else [Effect.cleanupDropTmpDb]
  let livedbTableNameList := env.showTablesResult.getD []
  let trace1 : List Effect := [Effect.showTables, Effect.dropTmpDb]
  if env.dropDbOk = false then trace1 ++ cleanupTrace
  else
    let trace2 := trace1 ++ [Effect.createTmpDb]
    if env.createDbOk = false then trace2 ++ cleanupTrace
    else
      let trace3 := trace2 ++ [Effect.useTmpDb]
      if env.useDbOk = false then trace3 ++ cleanupTrace
      else
        let trace4 := trace3 ++ [Effect.readdir]
        match env.readdirResult with
        | none => trace4 ++ cleanupTrace
        | some files =>
          if files.length = 0 then trace4 ++ cleanupTrace
          else
            let sqlFiles := files.filter (isSqlFileSync env.isRegularFile)
            let versionControlledTableNameList := sqlFiles.map basenameSql
            let loadTrace := sqlFiles.map (fun f => Effect.sourceFile f (env.sourceOk f))
            let diffTrace :=
              (inBothList versionControlledTableNameList livedbTableNameList).map
                Effect.diffTable
            let pushScript :=
              assemblePushScript env.fileContent env.diffStdout
                versionControlledTableNameList livedbTableNameList
            let writeTrace :=
              if env.exportPathTruthy then [Effect.writeScript pushScript] else []
            let execTrace :=
              if dryRunPush then [] else [Effect.execPushScript pushScript]
            trace4 ++ loadTrace ++ diffTrace ++ writeTrace ++ execTrace ++ cleanupTrace

/-! ## Lemmas about the set reconciler -/

theorem mem_setAdd (resultSet : List String) (x y : String) :
    y ∈ setAdd resultSet x ↔ y ∈ resultSet ∨ y = x := by
  unfold setAdd
  split
  · rename_i h
    constructor
    · exact fun hy => Or.inl hy
    · rintro (hy | rfl)
      · exact hy
      · exact h
  · simp [List.mem_append]

theorem nodup_setAdd (resultSet : List String) (x : String)
    (h : resultSet.Nodup) : (setAdd resultSet x).Nodup := by
  unfold setAdd
  split
  · exact h
  · rename_i hx
    simp only [List.nodup_append, List.nodup_singleton, true_and, and_true, h]
    intro a ha
    simp only [List.mem_singleton]
    intro rfl_eq
    exact hx (rfl_eq ▸ ha)

theorem mem_foldl_setAdd (l : List String) :
    ∀ (acc : List String) (y : String),
      y ∈ l.foldl setAdd acc ↔ y ∈ acc ∨ y ∈ l := by
  induction l with
  | nil => simp
  | cons a l ih =>
    intro acc y
    simp only [List.foldl_cons, ih (setAdd acc a) y, mem_setAdd, List.mem_cons]
    tauto

theorem nodup_foldl_setAdd (l : List String) :
    ∀ acc : List String, acc.Nodup → (l.foldl setAdd acc).Nodup := by
  induction l with
  | nil => exact fun _ h => h
  | cons a l ih =>
    intro acc hacc
    exact ih (setAdd acc a) (nodup_setAdd acc a hacc)

theorem mergeTwoListsSync_eq_foldl (a b : List String) :
    mergeTwoListsSync a b = (a ++ b).foldl setAdd [] := by
  simp [mergeTwoListsSync, List.foldl_append]

theorem mem_mergeTwoListsSync (a b : List String) (y : String) :
    y ∈ mergeTwoListsSync a b ↔ y ∈ a ∨ y ∈ b := by
  rw [mergeTwoListsSync_eq_foldl]
  simp [mem_foldl_setAdd]

theorem nodup_mergeTwoListsSync (a b : List String) :
    (mergeTwoListsSync a b).Nodup := by
  rw [mergeTwoListsSync_eq_foldl]
  exact nodup_foldl_setAdd _ _ List.nodup_nil

theorem foldl_setAdd_eq_dedup (l : List String) :
    ∀ acc : List String,
      l.foldl setAdd acc = acc ++ firstSeenDedup (l.filter (fun y => y ∉ acc)) := by
  induction l with
  | nil => intro acc; simp [firstSeenDedup]
  | cons a l ih =>
    intro acc
    by_cases ha : a ∈ acc
    · have hset : setAdd acc a = acc := by simp [setAdd, ha]
      rw [List.foldl_cons, hset, ih acc]
      simp [List.filter_cons, ha]
    · have hset : setAdd acc a = acc ++ [a] := by simp [setAdd, ha]
      have hfc : List.filter (fun y => decide (y ∉ acc)) (a :: l) =
          a :: List.filter (fun y => decide (y ∉ acc)) l := by
        simp [List.filter_cons, ha]
      rw [List.foldl_cons, hset, ih (acc ++ [a]), hfc, firstSeenDedup]
      have hfilter :
          List.filter (fun y => decide (y ∉ acc ++ [a])) l =
          List.filter (fun y => decide (y ≠ a))
            (List.filter (fun y => decide (y ∉ acc)) l) := by
        rw [List.filter_filter]
        apply List.filter_congr
        intro x _
        by_cases h1 : x ∈ acc <;> by_cases h2 : x = a <;>
          simp [h1, h2, List.mem_append]
      rw [hfilter, List.append_assoc, List.singleton_append]

theorem mergeTwoListsSync_eq_firstSeenDedup (a b : List String) :
    mergeTwoListsSync a b = firstSeenDedup (a ++ b) := by
  rw [mergeTwoListsSync_eq_foldl, foldl_setAdd_eq_dedup]
  simp

theorem getExclusive_eq_filter (a b : List String) :
    getExclusiveImageRemoteNameListInFirstOperandSync a b =
      a.filter (fun x => x ∉ b) := by
  unfold getExclusiveImageRemoteNameListInFirstOperandSync
  suffices h : ∀ (l acc : List String),
      l.foldl (fun resultList eleVal =>
        if eleVal ∈ b then resultList else resultList ++ [eleVal]) acc =
      acc ++ l.filter (fun x => x ∉ b) by
    simpa using h a []
  intro l
  induction l with
  | nil => intro acc; simp
  | cons x l ih =>
    intro acc
    by_cases hx : x ∈ b
    · rw [List.foldl_cons, if_pos hx, ih acc]
      simp [List.filter_cons, hx]
    · have hfc : List.filter (fun y => decide (y ∉ b)) (x :: l) =
          x :: List.filter (fun y => decide (y ∉ b)) l := by
        simp [List.filter_cons, hx]
      rw [List.foldl_cons, if_neg hx, ih (acc ++ [x]), hfc, List.append_assoc,
        List.singleton_append]

theorem mem_getExclusive (a b : List String) (x : String) :
    x ∈ getExclusiveImageRemoteNameListInFirstOperandSync a b ↔ x ∈ a ∧ x ∉ b := by
  rw [getExclusive_eq_filter]
  simp

theorem nodup_getExclusive (a b : List String) (h : a.Nodup) :
    (getExclusiveImageRemoteNameListInFirstOperandSync a b).Nodup := by
  rw [getExclusive_eq_filter]
  exact h.filter _

theorem mem_inBothList (a b : List String) (t : String) :
    t ∈ inBothList a b ↔ t ∈ a ∧ t ∈ b := by
  unfold inBothList exclusiveVersionControlledTableNameList exclusiveLivedbTableNameList
  simp only [List.mem_filter, mem_mergeTwoListsSync, mem_getExclusive,
    decide_eq_true_eq]
  constructor
  · rintro ⟨hm, hf⟩
    simp only [not_and, not_not] at hf
    rcases hm with h | h
    · exact ⟨h, hf.1 h⟩
    · exact ⟨hf.2 h, h⟩
  · rintro ⟨ha, hb⟩
    refine ⟨Or.inl ha, ?_⟩
    constructor <;> intro h <;> simp_all

theorem nodup_inBothList (a b : List String) : (inBothList a b).Nodup :=
  (nodup_mergeTwoListsSync a b).filter _

theorem foldl_append_eq_join (l : List String) (f : String → String) :
    l.foldl (fun s t => s ++ f t) "" = String.join (l.map f) := by
  rw [String.join, List.foldl_map]

example : mergeTwoListsSync ["a", "b"] ["b", "c"] = ["a", "b", "c"] := by decide
example : getExclusiveImageRemoteNameListInFirstOperandSync ["a", "b"] ["b", "c"] = ["a"] := by decide
example : inBothList ["a", "b"] ["b", "c"] = ["b"] := by decide
example : removeSqlStrMetaSync "/*!40101 SET x*/;\nCREATE TABLE t;" = "CREATE TABLE t;" := by decide
example : removeSqlStrMetaSync "/*!a*/;SELECT 1;/*!b*/;" = "" := by decide
example : basenameSql "users.sql" = "users" := by decide
example :
    runPushModel
      { showTablesResult := some ["b", "c"], dropDbOk := true, createDbOk := true,
        useDbOk := true, readdirResult := some ["a.sql", "b.sql"],
        isRegularFile := fun _ => true, fileContent := fun _ => "CREATE TABLE x;",
        sourceOk := fun _ => true, diffStdout := fun _ => "",
        exportPathTruthy := true, retainsTmp := true } false =
    [Effect.showTables, Effect.dropTmpDb, Effect.createTmpDb, Effect.useTmpDb,
     Effect.readdir, Effect.sourceFile "a.sql" true, Effect.sourceFile "b.sql" true,
     Effect.diffTable "b",
     Effect.writeScript "CREATE TABLE x;\n\nDROP TABLE IF EXISTS c\n",
     Effect.execPushScript "CREATE TABLE x;\n\nDROP TABLE IF EXISTS c\n"] := by decide

/-! ## Claim theorems about the set reconciler -/

/-- C1 counterexample: as stated over every pair of lists the claim fails —
with the duplicated file list `["t", "t"]` and no live tables, the
only-in-files set is `["t", "t"]`, which has a duplicate, so the three sets
are not duplicate-free. -/
theorem reconciliation_nodup_fails_on_duplicates :
    ¬ (getExclusiveImageRemoteNameListInFirstOperandSync ["t", "t"] []).Nodup := by
  decide

/-- C1 (amended with the snapshot-uniqueness precondition): when each input
list contains each table name at most once, the merged list contains each
name exactly once in first-seen A-then-B order, and the three derived sets
partition it — their union is the merged list, they are pairwise disjoint,
and none contains a duplicate. -/
theorem reconciliation_invariants (A B : List String)
    (hA : A.Nodup) (hB : B.Nodup) :
    (mergeTwoListsSync A B).Nodup ∧
    (∀ x, x ∈ mergeTwoListsSync A B ↔ x ∈ A ∨ x ∈ B) ∧
    mergeTwoListsSync A B = firstSeenDedup (A ++ B) ∧
    (∀ x, (x ∈ exclusiveVersionControlledTableNameList A B ∨
           x ∈ exclusiveLivedbTableNameList A B ∨
           x ∈ inBothList A B) ↔ x ∈ mergeTwoListsSync A B) ∧
    (∀ x, ¬(x ∈ exclusiveVersionControlledTableNameList A B ∧
            x ∈ exclusiveLivedbTableNameList A B) ∧
          ¬(x ∈ exclusiveVersionControlledTableNameList A B ∧ x ∈ inBothList A B) ∧
          ¬(x ∈ exclusiveLivedbTableNameList A B ∧ x ∈ inBothList A B)) ∧
    (exclusiveVersionControlledTableNameList A B).Nodup ∧
    (exclusiveLivedbTableNameList A B).Nodup ∧
    (inBothList A B).Nodup := by
  refine ⟨nodup_mergeTwoListsSync A B, mem_mergeTwoListsSync A B,
    mergeTwoListsSync_eq_firstSeenDedup A B, ?_, ?_, nodup_getExclusive A B hA,
    nodup_getExclusive B A hB, nodup_inBothList A B⟩
  · intro x
    simp only [exclusiveVersionControlledTableNameList, exclusiveLivedbTableNameList,
      mem_getExclusive, mem_inBothList, mem_mergeTwoListsSync]
    tauto
  · intro x
    simp only [exclusiveVersionControlledTableNameList, exclusiveLivedbTableNameList,
      mem_getExclusive, mem_inBothList]
    tauto

/-- Witness for C1's amended theorem at the concrete nodup snapshots
`["a", "b"]` and `["b", "c"]`. -/
theorem reconciliation_invariants_witness :
    (mergeTwoListsSync ["a", "b"] ["b", "c"]).Nodup ∧
    (∀ x, x ∈ mergeTwoListsSync ["a", "b"] ["b", "c"] ↔
        x ∈ ["a", "b"] ∨ x ∈ ["b", "c"]) ∧
    mergeTwoListsSync ["a", "b"] ["b", "c"] = firstSeenDedup (["a", "b"] ++ ["b", "c"]) ∧
    (∀ x, (x ∈ exclusiveVersionControlledTableNameList ["a", "b"] ["b", "c"] ∨
           x ∈ exclusiveLivedbTableNameList ["a", "b"] ["b", "c"] ∨
           x ∈ inBothList ["a", "b"] ["b", "c"]) ↔
        x ∈ mergeTwoListsSync ["a", "b"] ["b", "c"]) ∧
    (∀ x, ¬(x ∈ exclusiveVersionControlledTableNameList ["a", "b"] ["b", "c"] ∧
            x ∈ exclusiveLivedbTableNameList ["a", "b"] ["b", "c"]) ∧
          ¬(x ∈ exclusiveVersionControlledTableNameList ["a", "b"] ["b", "c"] ∧
            x ∈ inBothList ["a", "b"] ["b", "c"]) ∧
          ¬(x ∈ exclusiveLivedbTableNameList ["a", "b"] ["b", "c"] ∧
            x ∈ inBothList ["a", "b"] ["b", "c"])) ∧
    (exclusiveVersionControlledTableNameList ["a", "b"] ["b", "c"]).Nodup ∧
    (exclusiveLivedbTableNameList ["a", "b"] ["b", "c"]).Nodup ∧
    (inBothList ["a", "b"] ["b", "c"]).Nodup :=
  reconciliation_invariants ["a", "b"] ["b", "c"] (by decide) (by decide)

/-- C6: the two exclusive sets of a push run are the one function with its
operands swapped, so onlyInFiles(A,B) equals onlyLive(B,A); the pointwise
characterization makes the complementarity explicit. -/
theorem exclusive_swap_complementary (A B : List String) :
    exclusiveVersionControlledTableNameList A B = exclusiveLivedbTableNameList B A ∧
    (∀ x, x ∈ exclusiveVersionControlledTableNameList A B ↔ x ∈ A ∧ x ∉ B) :=
  ⟨rfl, fun x => mem_getExclusive A B x⟩

/-- C9: the exclusive-set computation copies every occurrence from its first
operand, so a repeated name absent from the second operand appears twice in
the output and the no-duplicates invariant fails for arbitrary lists; under
the snapshot-uniqueness precondition all three sets are duplicate-free. -/
theorem exclusive_preserves_first_operand_duplicates (A B : List String)
    (hA : A.Nodup) (hB : B.Nodup) :
    getExclusiveImageRemoteNameListInFirstOperandSync ["t", "t"] [] = ["t", "t"] ∧
    ¬ (getExclusiveImageRemoteNameListInFirstOperandSync ["t", "t"] []).Nodup ∧
    (getExclusiveImageRemoteNameListInFirstOperandSync A B).Nodup ∧
    (getExclusiveImageRemoteNameListInFirstOperandSync B A).Nodup ∧
    (inBothList A B).Nodup :=
  ⟨by decide, by decide, nodup_getExclusive A B hA, nodup_getExclusive B A hB,
    nodup_inBothList A B⟩

/-- Witness for C9 at the concrete nodup snapshots `["a"]` and `["b"]`. -/
theorem exclusive_preserves_first_operand_duplicates_witness :
    getExclusiveImageRemoteNameListInFirstOperandSync ["t", "t"] [] = ["t", "t"] ∧
    ¬ (getExclusiveImageRemoteNameListInFirstOperandSync ["t", "t"] []).Nodup ∧
    (getExclusiveImageRemoteNameListInFirstOperandSync ["a"] ["b"]).Nodup ∧
    (getExclusiveImageRemoteNameListInFirstOperandSync ["b"] ["a"]).Nodup ∧
    (inBothList ["a"] ["b"]).Nodup :=
  exclusive_preserves_first_operand_duplicates ["a"] ["b"] (by decide) (by decide)

/-! ## Claim theorems about the script assembler -/

/-- C2: the assembled push script is the concatenation, in merged order, of
one fragment per table (sanitized CREATE contents, DROP statement, or diff
stdout, each with its trailing newline); in the spec's scenario — files
`a.sql`, `b.sql` and live tables `b`, `c` — the script is the CREATE
fragment for `a`, the diff fragment for `b` and the DROP fragment for `c`,
in that order, with the diff fragment keeping its newline even when the
captured stdout is empty. -/
theorem assemblePushScript_concat_in_merged_order
    (fileContent diffStdout : String → String)
    (versionControlledTableNameList livedbTableNameList : List String) :
    assemblePushScript fileContent diffStdout
        versionControlledTableNameList livedbTableNameList =
      String.join
        ((mergeTwoListsSync versionControlledTableNameList livedbTableNameList).map
          (scriptFragment fileContent diffStdout
            (exclusiveVersionControlledTableNameList
              versionControlledTableNameList livedbTableNameList)
            (exclusiveLivedbTableNameList
              versionControlledTableNameList livedbTableNameList))) ∧
    assemblePushScript fileContent diffStdout ["a", "b"] ["b", "c"] =
      String.join
        [removeSqlStrMetaSync (fileContent "a.sql") ++ "\n",
         diffStdout "b" ++ "\n",
         "DROP TABLE IF EXISTS c\n"] := by
  constructor
  · unfold assemblePushScript
    exact foldl_append_eq_join _ _
  · unfold assemblePushScript
    rw [foldl_append_eq_join]
    rfl

/-! ## The success branch of the pipeline -/

/-- When the scratch-database stages succeed and the directory listing is
nonempty, the run performs the five pipeline-control effects, then one
sourcing query per listed `.sql` file, one diff subprocess per table on both
sides, the optional script write, the optional execution, and the optional
cleanup, in that order. -/
theorem runPushModel_success_trace (env : DbEnv) (dryRunPush : Bool)
    (files : List String)
    (h2 : env.dropDbOk = true) (h3 : env.createDbOk = true) (h4 : env.useDbOk = true)
    (h5 : env.readdirResult = some files) (h6 : files ≠ []) :
    runPushModel env dryRunPush =
      [Effect.showTables, Effect.dropTmpDb, Effect.createTmpDb, Effect.useTmpDb,
       Effect.readdir] ++
      (((files.filter (isSqlFileSync env.isRegularFile)).map
          (fun f => Effect.sourceFile f (env.sourceOk f))) ++
        (((inBothList ((files.filter (isSqlFileSync env.isRegularFile)).map basenameSql)
            (env.showTablesResult.getD [])).map Effect.diffTable) ++
          ((if env.exportPathTruthy then
              [Effect.writeScript (assemblePushScript env.fileContent env.diffStdout
                ((files.filter (isSqlFileSync env.isRegularFile)).map basenameSql)
                (env.showTablesResult.getD []))] else []) ++
            ((if dryRunPush then [] else
              [Effect.execPushScript (assemblePushScript env.fileContent env.diffStdout
                ((files.filter (isSqlFileSync env.isRegularFile)).map basenameSql)
                (env.showTablesResult.getD []))]) ++
              (if env.retainsTmp then [] else [Effect.cleanupDropTmpDb]))))) := by
  unfold runPushModel
  rw [h2, h3, h4, h5]
  simp only [Bool.true_eq_false, if_false]
  rw [if_neg (by simp [List.length_eq_zero, h6])]
  simp [List.append_assoc]

/-! ## Claim theorems about the pipeline's control flow -/

/-- The environment of C3's failing input: the `SHOW TABLES` query on the
live connection errors, and every later stage would succeed; one schema file
`t.sql` is present. -/
def showTablesFailEnv : DbEnv where
  showTablesResult := none
  dropDbOk := true
  createDbOk := true
  useDbOk := true
  readdirResult := some ["t.sql"]
  isRegularFile := fun _ => true
  fileContent := fun _ => "CREATE TABLE t (id INT);"
  sourceOk := fun _ => true
  diffStdout := fun _ => ""
  exportPathTruthy := true
  retainsTmp := true

/-- C3 (code bug): when `SHOW TABLES` fails, its callback resolves `false`,
but the following `.then` — alone in the chain — never inspects that flag,
so the run does not abort: the scratch database is still dropped, created
and used, the schema file is read and sourced, and a script assembled
against an empty live-table list is written and executed against the live
database. -/
theorem showTables_failure_does_not_abort :
    showTablesFailEnv.showTablesResult = none ∧
    runPushModel showTablesFailEnv false =
      [Effect.showTables, Effect.dropTmpDb, Effect.createTmpDb, Effect.useTmpDb,
       Effect.readdir, Effect.sourceFile "t.sql" true,
       Effect.writeScript "CREATE TABLE t (id INT);\n",
       Effect.execPushScript "CREATE TABLE t (id INT);\n"] :=
  ⟨rfl, by decide⟩

/-- The environment of C4's counterexample: the directory listing holds the
single entry `README.md`, a regular file without the `.sql` suffix, and the
live database has one table `x`. -/
def noSqlFilesEnv : DbEnv where
  showTablesResult := some ["x"]
  dropDbOk := true
  createDbOk := true
  useDbOk := true
  readdirResult := some ["README.md"]
  isRegularFile := fun _ => true
  fileContent := fun _ => ""
  sourceOk := fun _ => true
  diffStdout := fun _ => ""
  exportPathTruthy := true
  retainsTmp := true

/-- C4 counterexample: the listing filtered to `.sql` files is empty, yet the
run is not fatal — it proceeds past reconciliation, assembles a script that
drops the live table `x`, writes it and executes it, because the code checks
the raw listing's length before the filter. -/
theorem empty_filtered_listing_still_pushes :
    (["README.md"].filter (isSqlFileSync noSqlFilesEnv.isRegularFile)).length = 0 ∧
    noSqlFilesEnv.readdirResult = some ["README.md"] ∧
    runPushModel noSqlFilesEnv false =
      [Effect.showTables, Effect.dropTmpDb, Effect.createTmpDb, Effect.useTmpDb,
       Effect.readdir, Effect.writeScript "DROP TABLE IF EXISTS x\n",
       Effect.execPushScript "DROP TABLE IF EXISTS x\n"] :=
  ⟨by decide, rfl, by decide⟩

/-- C4 (amended): the fatal nothing-to-push check runs on the raw directory
listing before the `.sql` filter, so it is an empty listing — not an empty
filtered list — that aborts the run; with an empty listing no file is
sourced, no table is diffed, and no script is written or executed. -/
theorem empty_listing_aborts (env : DbEnv) (dryRunPush : Bool)
    (h : env.readdirResult = some []) :
    ∀ e ∈ runPushModel env dryRunPush,
      e = Effect.showTables ∨ e = Effect.dropTmpDb ∨ e = Effect.createTmpDb ∨
      e = Effect.useTmpDb ∨ e = Effect.readdir ∨ e = Effect.cleanupDropTmpDb := by
  obtain ⟨st, d1, d2, d3, rr, irf, fc, so, ds, ep, rt⟩ := env
  simp only at h
  subst h
  cases d1 <;> cases d2 <;> cases d3 <;> cases rt <;> intro e he <;>
    simp [runPushModel] at he <;> tauto

/-- The environment of C4's amended-claim witness: an empty directory
listing, with the cleanup drop enabled. -/
def emptyListingEnv : DbEnv where
  showTablesResult := some ["x"]
  dropDbOk := true
  createDbOk := true
  useDbOk := true
  readdirResult := some []
  isRegularFile := fun _ => true
  fileContent := fun _ => ""
  sourceOk := fun _ => true
  diffStdout := fun _ => ""
  exportPathTruthy := true
  retainsTmp := false

/-- Witness for C4's amended theorem: with an empty listing, no script write
and no sourcing query appears in the trace. -/
theorem empty_listing_aborts_witness :
    Effect.writeScript "DROP TABLE IF EXISTS x\n" ∉ runPushModel emptyListingEnv false ∧
    Effect.sourceFile "t.sql" true ∉ runPushModel emptyListingEnv false := by
  constructor <;>
  · intro hmem
    rcases empty_listing_aborts emptyListingEnv false rfl _ hmem with
      h | h | h | h | h | h <;> simp at h

/-- C7: a per-file sourcing failure is non-fatal: with one listed schema
file whose CREATE statement fails, every listed `.sql` file still gets its
own sourcing query, in listing order (the sourcing subtrace is a sublist of
the run's trace), the failing file among them marked not sourced, and the
run still proceeds to script assembly and the script write. -/
theorem per_file_load_failure_is_recoverable (env : DbEnv) (dryRunPush : Bool)
    (files : List String) (f0 : String)
    (h2 : env.dropDbOk = true) (h3 : env.createDbOk = true) (h4 : env.useDbOk = true)
    (h5 : env.readdirResult = some files) (h6 : files ≠ [])
    (h7 : f0 ∈ files.filter (isSqlFileSync env.isRegularFile))
    (h8 : env.sourceOk f0 = false)
    (h9 : env.exportPathTruthy = true) :
    ((files.filter (isSqlFileSync env.isRegularFile)).map
        (fun f => Effect.sourceFile f (env.sourceOk f))).Sublist
      (runPushModel env dryRunPush) ∧
    Effect.sourceFile f0 false ∈ runPushModel env dryRunPush ∧
    (∃ s, Effect.writeScript s ∈ runPushModel env dryRunPush) := by
  have htrace := runPushModel_success_trace env dryRunPush files h2 h3 h4 h5 h6
  have hload : Effect.sourceFile f0 false ∈
      (files.filter (isSqlFileSync env.isRegularFile)).map
        (fun f => Effect.sourceFile f (env.sourceOk f)) := by
    rw [List.mem_map]
    exact ⟨f0, h7, by rw [h8]⟩
  refine ⟨?_, ?_, ?_⟩
  · rw [htrace]
    exact (List.sublist_append_left _ _).trans (List.sublist_append_right _ _)
  · rw [htrace]
    simp only [List.mem_append]
    exact Or.inr (Or.inl hload)
  · refine ⟨assemblePushScript env.fileContent env.diffStdout
      ((files.filter (isSqlFileSync env.isRegularFile)).map basenameSql)
      (env.showTablesResult.getD []), ?_⟩
    rw [htrace]
    simp [h9]

/-- The environment of C7's witness: two schema files, of which `bad.sql`
fails to source while `good.sql` succeeds. -/
def oneBadFileEnv : DbEnv where
  showTablesResult := some []
  dropDbOk := true
  createDbOk := true
  useDbOk := true
  readdirResult := some ["bad.sql", "good.sql"]
  isRegularFile := fun _ => true
  fileContent := fun _ => "CREATE TABLE x;"
  sourceOk := fun f => f != "bad.sql"
  diffStdout := fun _ => ""
  exportPathTruthy := true
  retainsTmp := true

/-- Witness for C7 at the concrete two-file environment where `bad.sql`
fails. -/
theorem per_file_load_failure_is_recoverable_witness :
    ((["bad.sql", "good.sql"].filter (isSqlFileSync oneBadFileEnv.isRegularFile)).map
        (fun f => Effect.sourceFile f (oneBadFileEnv.sourceOk f))).Sublist
      (runPushModel oneBadFileEnv false) ∧
    Effect.sourceFile "bad.sql" false ∈ runPushModel oneBadFileEnv false ∧
    (∃ s, Effect.writeScript s ∈ runPushModel oneBadFileEnv false) :=
  per_file_load_failure_is_recoverable oneBadFileEnv false ["bad.sql", "good.sql"]
    "bad.sql" rfl rfl rfl rfl (by decide) (by decide) (by decide) rfl

/-- C8: with the dry-run flag set, a run that reaches the assembly stage
still writes the assembled script to the configured export path, and no
execute call for any script reaches the live connection. -/
theorem dry_run_writes_but_never_executes (env : DbEnv) (files : List String)
    (h2 : env.dropDbOk = true) (h3 : env.createDbOk = true) (h4 : env.useDbOk = true)
    (h5 : env.readdirResult = some files) (h6 : files ≠ [])
    (h9 : env.exportPathTruthy = true) :
    (∃ s, Effect.writeScript s ∈ runPushModel env true) ∧
    (∀ s, Effect.execPushScript s ∉ runPushModel env true) := by
  have htrace := runPushModel_success_trace env true files h2 h3 h4 h5 h6
  constructor
  · refine ⟨assemblePushScript env.fileContent env.diffStdout
      ((files.filter (isSqlFileSync env.isRegularFile)).map basenameSql)
      (env.showTablesResult.getD []), ?_⟩
    rw [htrace]
    simp [h9]
  · intro s hmem
    rw [htrace] at hmem
    cases hrt : env.retainsTmp <;> simp [h9, hrt] at hmem

/-! ## Directive syntax for the sanitizer claims -/

/-- A run of blank-line terminators, each `\n` or `\r\n`. -/
inductive NlRun : List Char → Prop where
  | nil : NlRun []
  | lf : ∀ cs, NlRun cs → NlRun ('\n' :: cs)
  | crlf : ∀ cs, NlRun cs → NlRun ('\r' :: '\n' :: cs)

/-- A string made only of engine-generated conditional-comment directives:
a sequence of blocks `/*!` body `*/;`, each with a nonempty single-line
body and optionally followed by blank lines. -/
inductive DirectivesOnly : List Char → Prop where
  | nil : DirectivesOnly []
  | block : ∀ body nls rest, body ≠ [] → body.all isDotChar = true → NlRun nls →
      DirectivesOnly rest →
      DirectivesOnly (bangOpen ++ body ++ termClose ++ nls ++ rest)

/-- A string containing an engine-generated conditional-comment directive:
somewhere in it, `/*!` followed on the same line by a nonempty body and the
terminator `*/;`. -/
def HasDirective (cs : List Char) : Prop :=
  ∃ pre body post, body ≠ [] ∧ body.all isDotChar = true ∧
    cs = pre ++ bangOpen ++ body ++ termClose ++ post

/-- Scan for a position at which the directive regex matches. -/
def containsDirective : List Char → Bool
  | [] => false
  | c :: cs => (matchDirectiveLen (c :: cs)).isSome || containsDirective cs

/-! ## Lemmas about the regex pieces -/

theorem leadsWith_append (p l : List Char) : leadsWith p (p ++ l) = true := by
  induction p with
  | nil => rfl
  | cons c p ih => simp [leadsWith, ih]

theorem leadsWith_exists (p : List Char) :
    ∀ l, leadsWith p l = true → ∃ l2, l = p ++ l2 := by
  induction p with
  | nil => exact fun l _ => ⟨l, rfl⟩
  | cons c p ih =>
    intro l h
    cases l with
    | nil => simp [leadsWith] at h
    | cons d l =>
      simp only [leadsWith, Bool.and_eq_true, beq_iff_eq] at h
      obtain ⟨rfl, h2⟩ := h
      obtain ⟨l2, rfl⟩ := ih l h2
      exact ⟨l2, rfl⟩

theorem dotRunLen_cons (c : Char) (l : List Char) :
    dotRunLen (c :: l) = if isDotChar c then dotRunLen l + 1 else 0 := rfl

theorem dotRunLen_append (body : List Char) (h : body.all isDotChar = true)
    (l : List Char) : dotRunLen (body ++ l) = body.length + dotRunLen l := by
  induction body with
  | nil => simp
  | cons c body ih =>
    simp only [List.all_cons, Bool.and_eq_true] at h
    rw [List.cons_append, dotRunLen_cons, if_pos h.1, ih h.2, List.length_cons]
    omega

theorem take_all_dot (l : List Char) :
    ∀ k, k ≤ dotRunLen l → (l.take k).all isDotChar = true := by
  induction l with
  | nil => intro k _; simp
  | cons c l ih =>
    intro k hk
    cases k with
    | zero => simp
    | succ k =>
      by_cases hc : isDotChar c
      · simp only [dotRunLen, if_pos hc] at hk
        simp [List.take_succ_cons, hc, ih k (Nat.le_of_succ_le_succ hk)]
      · simp [dotRunLen, hc] at hk

theorem dotRunLen_le (l : List Char) : dotRunLen l ≤ l.length := by
  induction l with
  | nil => simp [dotRunLen]
  | cons c l ih =>
    rw [dotRunLen_cons]
    by_cases hc : isDotChar c
    · simp only [if_pos hc, List.length_cons]
      omega
    · simp [hc]

theorem greedyBody_bounds (rest : List Char) :
    ∀ t k, greedyBody rest t = some k →
      1 ≤ k ∧ k ≤ t ∧ leadsWith termClose (rest.drop k) = true := by
  intro t
  induction t with
  | zero => intro k h; simp [greedyBody] at h
  | succ t ih =>
    intro k h
    unfold greedyBody at h
    split at h
    · rename_i hlead
      cases h
      exact ⟨Nat.succ_le_succ (Nat.zero_le t), Nat.le_refl _, hlead⟩
    · obtain ⟨h1, h2, h3⟩ := ih k h
      exact ⟨h1, Nat.le_succ_of_le h2, h3⟩

theorem greedyBody_max (rest : List Char) (target : Nat)
    (h1 : 1 ≤ target) (hlead : leadsWith termClose (rest.drop target) = true) :
    ∀ t, target ≤ t →
      (∀ j, target < j → j ≤ t → leadsWith termClose (rest.drop j) = false) →
      greedyBody rest t = some target := by
  intro t
  induction t with
  | zero => intro h _; omega
  | succ t ih =>
    intro hle hmax
    unfold greedyBody
    by_cases heq : target = t + 1
    · subst heq
      rw [if_pos hlead]
    · have hfail : leadsWith termClose (rest.drop (t + 1)) = false :=
        hmax (t + 1) (by omega) (Nat.le_refl _)
      rw [if_neg (by simp [hfail])]
      exact ih (by omega) (fun j hj1 hj2 => hmax j hj1 (Nat.le_succ_of_le hj2))

theorem greedyBody_isSome (rest : List Char) (k0 : Nat)
    (h1 : 1 ≤ k0) (hlead : leadsWith termClose (rest.drop k0) = true) :
    ∀ t, k0 ≤ t → (greedyBody rest t).isSome = true := by
  intro t
  induction t with
  | zero => intro h; omega
  | succ t ih =>
    intro hle
    unfold greedyBody
    split
    · rfl
    · rename_i hfail
      have hne : k0 ≠ t + 1 := fun heq => hfail (heq ▸ hlead)
      exact ih (by omega)

theorem nlRunLen_lf (cs : List Char) : nlRunLen ('\n' :: cs) = nlRunLen cs + 1 := rfl

theorem nlRunLen_crlf (cs : List Char) :
    nlRunLen ('\r' :: '\n' :: cs) = nlRunLen cs + 2 := rfl

theorem nlRunLen_slash (cs : List Char) : nlRunLen ('/' :: cs) = 0 := rfl

theorem nlRunLen_append (nls : List Char) (h : NlRun nls) (l : List Char) :
    nlRunLen (nls ++ l) = nls.length + nlRunLen l := by
  induction h with
  | nil => simp
  | lf cs _ ih =>
    simp only [List.cons_append, nlRunLen_lf, ih, List.length_cons]
    omega
  | crlf cs _ ih =>
    simp only [List.cons_append, nlRunLen_crlf, ih, List.length_cons]
    omega

theorem directivesOnly_shape (rest : List Char) (h : DirectivesOnly rest) :
    rest = [] ∨ ∃ cs, rest = '/' :: cs := by
  cases h with
  | nil => exact Or.inl rfl
  | block body nls r hb hd hn hr =>
    refine Or.inr ⟨'*' :: '!' :: (body ++ (termClose ++ (nls ++ r))), ?_⟩
    simp [bangOpen, List.cons_append, List.append_assoc]

/-- Normalization of a directives-only tail: a block body, its terminator
and a directives-only remainder can be rewritten so that the kept terminator
is the last one on its line — after it come blank lines, or nothing. -/
theorem directives_norm (rest : List Char) (h : DirectivesOnly rest) :
    ∀ body nls, body ≠ [] → body.all isDotChar = true → NlRun nls →
    ∃ BODY NLS REST,
      body ++ termClose ++ nls ++ rest = BODY ++ termClose ++ NLS ++ REST ∧
      BODY ≠ [] ∧ BODY.all isDotChar = true ∧ NlRun NLS ∧ DirectivesOnly REST ∧
      (NLS ≠ [] ∨ REST = []) := by
  induction h with
  | nil =>
    intro body nls hb hd hn
    exact ⟨body, nls, [], by simp, hb, hd, hn, DirectivesOnly.nil, Or.inr rfl⟩
  | block body2 nls2 rest2 hb2 hd2 hn2 hrest2 ih =>
    intro body nls hb hd hn
    cases nls with
    | cons c nlsTail =>
      refine ⟨body, c :: nlsTail, _, rfl, hb, hd, hn,
        DirectivesOnly.block body2 nls2 rest2 hb2 hd2 hn2 hrest2, Or.inl (by simp)⟩
    | nil =>
      obtain ⟨BODY, NLS, REST, heq, hB, hD, hN, hR, hside⟩ :=
        ih (body ++ termClose ++ bangOpen ++ body2) nls2
          (by simp [hb])
          (by simp only [List.all_append, Bool.and_eq_true]
              exact ⟨⟨⟨hd, by decide⟩, by decide⟩, hd2⟩)
          hn2
      refine ⟨BODY, NLS, REST, ?_, hB, hD, hN, hR, hside⟩
      calc body ++ termClose ++ [] ++ (bangOpen ++ body2 ++ termClose ++ nls2 ++ rest2)
          = (body ++ termClose ++ bangOpen ++ body2) ++ termClose ++ nls2 ++ rest2 := by
            simp [List.append_assoc]
        _ = BODY ++ termClose ++ NLS ++ REST := heq

theorem matchDirectiveLen_cons (rest : List Char) :
    matchDirectiveLen ('/' :: '*' :: '!' :: rest) =
      match greedyBody rest (dotRunLen rest) with
      | some k => some (3 + k + 3 + nlRunLen (rest.drop (k + 3)))
      | none => none := rfl

/-- On a nonempty directives-only string the directive regex matches at the
head, and erasing the match leaves a strictly shorter directives-only
string. -/
theorem directivesOnly_match (cs : List Char) (h : DirectivesOnly cs)
    (hne : cs ≠ []) :
    ∃ n, matchDirectiveLen cs = some n ∧
      DirectivesOnly (cs.drop n) ∧ (cs.drop n).length < cs.length := by
  cases h with
  | nil => exact absurd rfl hne
  | block body nls rest hb hd hn hrest =>
    obtain ⟨BODY, NLS, REST, heq, hB, hD, hN, hR, hside⟩ :=
      directives_norm rest hrest body nls hb hd hn
    have hcs : bangOpen ++ body ++ termClose ++ nls ++ rest =
        '/' :: '*' :: '!' :: (BODY ++ (termClose ++ (NLS ++ REST))) := by
      rw [show bangOpen ++ body ++ termClose ++ nls ++ rest =
          bangOpen ++ (body ++ termClose ++ nls ++ rest) by simp [List.append_assoc]]
      rw [heq]
      simp [bangOpen, List.append_assoc]
    have hdotY : dotRunLen (NLS ++ REST) = 0 := by
      cases hN with
      | nil =>
        have hREST : REST = [] := by
          rcases hside with hc | hc
          · exact absurd rfl hc
          · exact hc
        simp [hREST, dotRunLen]
      | lf cs' _ =>
        rw [List.cons_append, dotRunLen_cons]
        simp [isDotChar]
      | crlf cs' _ =>
        rw [List.cons_append, dotRunLen_cons]
        simp [isDotChar]
    have hdotR : dotRunLen (BODY ++ (termClose ++ (NLS ++ REST))) =
        BODY.length + 3 := by
      rw [dotRunLen_append BODY hD, dotRunLen_append termClose (by decide), hdotY]
      simp [termClose]
    have hdropB : (BODY ++ (termClose ++ (NLS ++ REST))).drop BODY.length =
        termClose ++ (NLS ++ REST) := List.drop_left _ _
    have hdropj : ∀ j, (BODY ++ (termClose ++ (NLS ++ REST))).drop (BODY.length + j) =
        (termClose ++ (NLS ++ REST)).drop j := by
      intro j
      rw [← List.drop_drop, hdropB]
    have hleadB : leadsWith termClose
        ((BODY ++ (termClose ++ (NLS ++ REST))).drop BODY.length) = true := by
      rw [hdropB]
      exact leadsWith_append _ _
    have hfail : ∀ j, BODY.length < j → j ≤ BODY.length + 3 →
        leadsWith termClose ((BODY ++ (termClose ++ (NLS ++ REST))).drop j) = false := by
      intro j hj1 hj2
      have hcases : j = BODY.length + 1 ∨ j = BODY.length + 2 ∨ j = BODY.length + 3 := by
        omega
      rcases hcases with rfl | rfl | rfl
      · rw [hdropj 1]
        rfl
      · rw [hdropj 2]
        rfl
      · rw [hdropj 3]
        rw [show (termClose ++ (NLS ++ REST)).drop 3 = NLS ++ REST from rfl]
        cases hN with
        | nil =>
          have hREST : REST = [] := by
            rcases hside with hc | hc
            · exact absurd rfl hc
            · exact hc
          rw [hREST]
          rfl
        | lf cs' _ => rfl
        | crlf cs' _ => rfl
    have hB1 : 1 ≤ BODY.length := List.length_pos.mpr hB
    have hgreedy : greedyBody (BODY ++ (termClose ++ (NLS ++ REST)))
        (dotRunLen (BODY ++ (termClose ++ (NLS ++ REST)))) = some BODY.length := by
      rw [hdotR]
      exact greedyBody_max _ BODY.length hB1 hleadB (BODY.length + 3) (by omega) hfail
    have hnlREST : nlRunLen REST = 0 := by
      rcases directivesOnly_shape REST hR with rfl | ⟨cs', rfl⟩
      · rfl
      · exact nlRunLen_slash cs'
    have hnl : nlRunLen ((BODY ++ (termClose ++ (NLS ++ REST))).drop (BODY.length + 3)) =
        NLS.length := by
      rw [hdropj 3]
      rw [show (termClose ++ (NLS ++ REST)).drop 3 = NLS ++ REST from rfl]
      rw [nlRunLen_append NLS hN REST, hnlREST]
      omega
    have hmatch : matchDirectiveLen (bangOpen ++ body ++ termClose ++ nls ++ rest) =
        some (3 + BODY.length + 3 + NLS.length) := by
      rw [hcs, matchDirectiveLen_cons, hgreedy]
      show some _ = some _
      rw [hnl]
    refine ⟨3 + BODY.length + 3 + NLS.length, hmatch, ?_, ?_⟩
    · have hP : bangOpen ++ body ++ termClose ++ nls ++ rest =
          (bangOpen ++ BODY ++ termClose ++ NLS) ++ REST := by
        rw [hcs]
        simp [bangOpen, List.append_assoc]
      have hPlen : (bangOpen ++ BODY ++ termClose ++ NLS).length =
          3 + BODY.length + 3 + NLS.length := by
        simp [bangOpen, termClose]
        omega
      rw [hP, ← hPlen, List.drop_left]
      exact hR
    · have hP : bangOpen ++ body ++ termClose ++ nls ++ rest =
          (bangOpen ++ BODY ++ termClose ++ NLS) ++ REST := by
        rw [hcs]
        simp [bangOpen, List.append_assoc]
      have hPlen : (bangOpen ++ BODY ++ termClose ++ NLS).length =
          3 + BODY.length + 3 + NLS.length := by
        simp [bangOpen, termClose]
        omega
      rw [hP, ← hPlen, List.drop_left, List.length_append]
      omega

theorem stripAux_cons_some (fuel : Nat) (c : Char) (cs : List Char) (n : Nat)
    (h : matchDirectiveLen (c :: cs) = some n) :
    stripAux (fuel + 1) (c :: cs) = stripAux fuel (List.drop n (c :: cs)) := by
  have hstep : stripAux (fuel + 1) (c :: cs) =
      match matchDirectiveLen (c :: cs) with
      | some n => stripAux fuel (List.drop n (c :: cs))
      | none => c :: stripAux fuel cs := rfl
  rw [hstep, h]

theorem stripAux_cons_none (fuel : Nat) (c : Char) (cs : List Char)
    (h : matchDirectiveLen (c :: cs) = none) :
    stripAux (fuel + 1) (c :: cs) = c :: stripAux fuel cs := by
  have hstep : stripAux (fuel + 1) (c :: cs) =
      match matchDirectiveLen (c :: cs) with
      | some n => stripAux fuel (List.drop n (c :: cs))
      | none => c :: stripAux fuel cs := rfl
  rw [hstep, h]

/-- Erasing every match from a directives-only string leaves nothing, for
any fuel at least the string's length. -/
theorem stripAux_directivesOnly :
    ∀ fuel cs, cs.length ≤ fuel → DirectivesOnly cs → stripAux fuel cs = [] := by
  intro fuel
  induction fuel with
  | zero =>
    intro cs hlen _
    cases cs with
    | nil => rfl
    | cons c cs' => simp at hlen
  | succ fuel ih =>
    intro cs hlen h
    cases cs with
    | nil => rfl
    | cons c cs' =>
      obtain ⟨n, hmatch, hdo, hlt⟩ := directivesOnly_match (c :: cs') h (by simp)
      rw [stripAux_cons_some fuel c cs' n hmatch]
      exact ih _ (by simp only [List.length_cons] at hlen hlt ⊢; omega) hdo

/-- A string at no position of which the regex matches is left unchanged by
the global replace. -/
theorem stripAux_id_of_no_directive :
    ∀ cs, containsDirective cs = false → stripAux cs.length cs = cs := by
  intro cs
  induction cs with
  | nil => intro _; rfl
  | cons c cs ih =>
    intro h
    simp only [containsDirective, Bool.or_eq_false_iff] at h
    obtain ⟨h1, h2⟩ := h
    have hnone : matchDirectiveLen (c :: cs) = none := by
      cases hm : matchDirectiveLen (c :: cs)
      · rfl
      · rw [hm] at h1
        simp at h1
    rw [show (c :: cs).length = cs.length + 1 from rfl]
    rw [stripAux_cons_none cs.length c cs hnone]
    rw [ih h2]

/-- A successful anchored match means the string starts with `/*!`, a
nonempty single-line body, and `*/;`. -/
theorem matchDirectiveLen_decomp (cs : List Char) (n : Nat)
    (h : matchDirectiveLen cs = some n) :
    ∃ body post, body ≠ [] ∧ body.all isDotChar = true ∧
      cs = bangOpen ++ body ++ termClose ++ post := by
  unfold matchDirectiveLen at h
  split at h
  · rename_i rest
    split at h
    · rename_i k hk
      obtain ⟨hk1, hk2, hk3⟩ := greedyBody_bounds rest (dotRunLen rest) k hk
      obtain ⟨l2, hl2⟩ := leadsWith_exists termClose (rest.drop k) hk3
      refine ⟨rest.take k, l2, ?_, take_all_dot rest k hk2, ?_⟩
      · have hklen : k ≤ rest.length := le_trans hk2 (dotRunLen_le rest)
        have : (rest.take k).length = k := by
          rw [List.length_take]
          omega
        intro hemp
        rw [hemp] at this
        simp at this
        omega
      · have : rest = rest.take k ++ (termClose ++ l2) := by
          rw [← hl2, List.take_append_drop]
        rw [show bangOpen ++ rest.take k ++ termClose ++ l2 =
            '/' :: '*' :: '!' :: (rest.take k ++ (termClose ++ l2)) by
          simp [bangOpen, List.append_assoc]]
        rw [← this]
    · exact absurd h (by simp)
  · exact absurd h (by simp)

/-- The regex matches at the head of `/*!` body `*/;` post for any nonempty
single-line body. -/
theorem matchDirectiveLen_isSome_of_shape (body post : List Char)
    (hb : body ≠ []) (hd : body.all isDotChar = true) :
    (matchDirectiveLen (bangOpen ++ body ++ termClose ++ post)).isSome = true := by
  have hsh : bangOpen ++ body ++ termClose ++ post =
      '/' :: '*' :: '!' :: (body ++ (termClose ++ post)) := by
    simp [bangOpen, List.append_assoc]
  have hlead : leadsWith termClose ((body ++ (termClose ++ post)).drop body.length) = true := by
    rw [List.drop_left]
    exact leadsWith_append _ _
  have hbound : body.length ≤ dotRunLen (body ++ (termClose ++ post)) := by
    rw [dotRunLen_append body hd]
    omega
  have h1 : 1 ≤ body.length := List.length_pos.mpr hb
  have hs := greedyBody_isSome (body ++ (termClose ++ post)) body.length h1 hlead
    (dotRunLen (body ++ (termClose ++ post))) hbound
  rcases hg : greedyBody (body ++ (termClose ++ post))
      (dotRunLen (body ++ (termClose ++ post))) with _ | k
  · rw [hg] at hs
    simp at hs
  · rw [hsh, matchDirectiveLen_cons, hg]
    rfl

/-- The operational scan finds a match exactly when the string contains a
directive in the syntactic sense. -/
theorem hasDirective_iff (cs : List Char) :
    containsDirective cs = true ↔ HasDirective cs := by
  constructor
  · induction cs with
    | nil => intro h; simp [containsDirective] at h
    | cons c cs ih =>
      intro h
      simp only [containsDirective, Bool.or_eq_true] at h
      rcases h with h | h
      · obtain ⟨n, hn⟩ := Option.isSome_iff_exists.mp h
        obtain ⟨body, post, hb, hd, heq⟩ := matchDirectiveLen_decomp (c :: cs) n hn
        exact ⟨[], body, post, hb, hd, by simpa using heq⟩
      · obtain ⟨pre, body, post, hb, hd, heq⟩ := ih h
        refine ⟨c :: pre, body, post, hb, hd, ?_⟩
        rw [heq]
        simp [List.cons_append, List.append_assoc]
  · rintro ⟨pre, body, post, hb, hd, rfl⟩
    induction pre with
    | nil =>
      rw [show ([] : List Char) ++ bangOpen ++ body ++ termClose ++ post =
          '/' :: '*' :: '!' :: (body ++ (termClose ++ post)) by
        simp [bangOpen, List.append_assoc]]
      rw [show containsDirective ('/' :: '*' :: '!' :: (body ++ (termClose ++ post))) =
          ((matchDirectiveLen ('/' :: '*' :: '!' :: (body ++ (termClose ++ post)))).isSome ||
            containsDirective ('*' :: '!' :: (body ++ (termClose ++ post)))) from rfl]
      have := matchDirectiveLen_isSome_of_shape body post hb hd
      rw [show bangOpen ++ body ++ termClose ++ post =
          '/' :: '*' :: '!' :: (body ++ (termClose ++ post)) by
        simp [bangOpen, List.append_assoc]] at this
      rw [this]
      rfl
    | cons p pre ih =>
      rw [show (p :: pre) ++ bangOpen ++ body ++ termClose ++ post =
          p :: (pre ++ bangOpen ++ body ++ termClose ++ post) by
        simp [List.cons_append, List.append_assoc]]
      rw [show containsDirective (p :: (pre ++ bangOpen ++ body ++ termClose ++ post)) =
          ((matchDirectiveLen (p :: (pre ++ bangOpen ++ body ++ termClose ++ post))).isSome ||
            containsDirective (pre ++ bangOpen ++ body ++ termClose ++ post)) from rfl]
      rw [ih]
      simp

/-! ## Claim theorems about the sanitizer -/

/-- C5: sanitization is the identity on a string that contains no
engine-generated conditional-comment directive, and annihilates a string
consisting only of such directives (version-gated comment blocks terminated
by the `*/;` sequence, each optionally followed by blank lines) — the
result is then exactly the empty string. -/
theorem removeSqlStrMeta_id_and_annihilation (s t : String)
    (h1 : ¬ HasDirective s.data) (h2 : DirectivesOnly t.data) :
    removeSqlStrMetaSync s = s ∧ removeSqlStrMetaSync t = "" := by
  constructor
  · have hc : containsDirective s.data = false := by
      cases hcd : containsDirective s.data
      · rfl
      · exact absurd ((hasDirective_iff s.data).mp hcd) h1
    show String.mk (stripAux s.data.length s.data) = s
    rw [stripAux_id_of_no_directive s.data hc]
  · show String.mk (stripAux t.data.length t.data) = ""
    rw [stripAux_directivesOnly t.data.length t.data (Nat.le_refl _) h2]

/-- Witness for C5: the directive-free statement `SELECT 1;` is unchanged,
and a single version-gated directive line with its newline is erased to the
empty string. -/
theorem removeSqlStrMeta_id_and_annihilation_witness :
    removeSqlStrMetaSync "SELECT 1;" = "SELECT 1;" ∧
    removeSqlStrMetaSync "/*!40101 SET NAMES utf8 */;\n" = "" := by
  apply removeSqlStrMeta_id_and_annihilation
  · intro hd
    have hcd := (hasDirective_iff _).mpr hd
    rw [show containsDirective "SELECT 1;".data = false by decide] at hcd
    exact absurd hcd (by simp)
  · have hdata : "/*!40101 SET NAMES utf8 */;\n".data =
        bangOpen ++ "40101 SET NAMES utf8 ".data ++ termClose ++ ['\n'] ++ [] := by
      decide
    rw [hdata]
    exact DirectivesOnly.block "40101 SET NAMES utf8 ".data ['\n'] []
      (by decide) (by decide) (NlRun.lf [] NlRun.nil) DirectivesOnly.nil

/-- C10: the greedy `.+` backtracks only to the last `*/;` on the line, so
ordinary SQL standing between two directive terminators on one line is
deleted together with the directives: here the statement
`DROP TABLE keepme;` sits between the two `*/;` terminators and the whole
input is erased to the empty string. -/
theorem removeSqlStrMeta_greedy_deletes_intervening_sql :
    removeSqlStrMetaSync
      "/*!40101 SET A*/;DROP TABLE keepme;/*!40101 SET B*/;" = "" := by
  decide

/-- Witness for C8 at the concrete two-file environment, with the dry-run
flag set. -/
theorem dry_run_writes_but_never_executes_witness :
    (∃ s, Effect.writeScript s ∈ runPushModel oneBadFileEnv true) ∧
    (∀ s, Effect.execPushScript s ∉ runPushModel oneBadFileEnv true) :=
  dry_run_writes_but_never_executes oneBadFileEnv ["bad.sql", "good.sql"]
    rfl rfl rfl rfl (by decide) rfl
